import Mathlib

/-!
Verification development for the 360-degree video annotation geometry engine.

The definitions below are a shallow embedding, over the real numbers, of the
spherical annotation geometry (src/src/utils/annotationGeometry.ts), the legacy
annotation migrator (src/src/utils/storage.ts), and the overlay interaction /
screenshot-capture logic (src/src/types.ts) of the repository.  The Three.js
perspective camera used by the application (created in the video player as
PerspectiveCamera(75, width/height, 0.1, 1000), positioned at the origin and
oriented with lookAt on the spherical camera-rotation direction with the
default up vector (0, 1, 0)) is embedded through its standard mathematical
semantics: the lookAt orthonormal basis, the WebGL perspective projection
matrix with symmetric frustum, and the perspective divide.  JavaScript
IEEE-754 doubles are modelled as real numbers.
-/

open Real

noncomputable section

/-- A 3-component vector, embedding THREE.Vector3. -/
@[ext]
structure Vec3 where
  x : ℝ
  y : ℝ
  z : ℝ

/-- Dot product of two vectors. -/
def Vec3.dot (a b : Vec3) : ℝ :=
  a.x * b.x + a.y * b.y + a.z * b.z

/-- Euclidean length, embedding THREE.Vector3.length. -/
def Vec3.length (v : Vec3) : ℝ :=
  sqrt (v.x ^ 2 + v.y ^ 2 + v.z ^ 2)

/-- Normalization, embedding THREE.Vector3.normalize (componentwise division
by the length; division by zero yields the zero vector, matching the use
sites, where the argument is never zero). -/
def Vec3.normalize (v : Vec3) : Vec3 :=
  ⟨v.x / v.length, v.y / v.length, v.z / v.length⟩

/-- The two-argument arctangent, embedding JavaScript Math.atan2(y, x).
Piecewise definition by the standard quadrant case split; the value at
(0, 0) is 0 as in JavaScript (signed zeros of IEEE-754 are identified). -/
def atan2 (y x : ℝ) : ℝ :=
  if 0 < x then arctan (y / x)
  else if x < 0 then
    (if 0 ≤ y then arctan (y / x) + π else arctan (y / x) - π)
  else
    (if 0 < y then π / 2 else if y < 0 then -(π / 2) else 0)

/-- World-space direction on the unit sphere, spherical angles (phi, theta),
embedding the { phi, theta } world-direction records of the source. -/
structure WorldDirection where
  phi : ℝ
  theta : ℝ

/-- Camera rotation pose { phi, theta }, embedding cameraRotationRef state. -/
structure CameraRotation where
  phi : ℝ
  theta : ℝ

/-- Legacy screen-space box { x, y, width, height }, normalized to [0,1]. -/
structure LegacyBox where
  x : ℝ
  y : ℝ
  width : ℝ
  height : ℝ

/-- A pixel-space box { x, y, width, height }. -/
structure ScreenBox where
  x : ℝ
  y : ℝ
  width : ℝ
  height : ℝ

/-- Embedding of THREE.PerspectiveCamera as used by the application: the
camera sits at the origin and is oriented by lookAt at the unit direction
determined by `pose` (see part_005: camera.lookAt(cos phi * sin theta,
sin phi, cos phi * cos theta)). -/
structure PerspectiveCamera where
  fov : ℝ
  aspect : ℝ
  near : ℝ
  far : ℝ
  pose : CameraRotation

/-- The camera the video player constructs:
THREE.PerspectiveCamera(75, width / height, 0.1, 1000) at the origin. -/
def appCamera (width height : ℝ) (pose : CameraRotation) : PerspectiveCamera :=
  ⟨75, width / height, 0.1, 1000, pose⟩

/-- Unit direction vector for spherical angles (phi, theta):
x = cos phi * sin theta, y = sin phi, z = cos phi * cos theta.  This is both
the lookAt target used by the video player and the direction reconstruction
in worldDirectionToScreen. -/
def dirOfAngles (phi theta : ℝ) : Vec3 :=
  ⟨cos phi * sin theta, sin phi, cos phi * cos theta⟩

/-- Camera-space x-axis (world coordinates) of the lookAt orientation for a
camera at the origin looking at `dirOfAngles p.phi p.theta` with up (0,1,0):
normalize(up x (-dir)).  Closed form of THREE.Matrix4.lookAt, valid whenever
cos p.phi is positive (the pose phi is clamped to [-pi/2, pi/2] by the
pan/restore handlers; the degenerate poles trigger an epsilon fallback in
THREE that is outside this model). -/
def camXAxis (p : CameraRotation) : Vec3 :=
  ⟨-cos p.theta, 0, sin p.theta⟩

/-- Camera-space y-axis (world coordinates) of the lookAt orientation:
(-dir) x camXAxis. -/
def camYAxis (p : CameraRotation) : Vec3 :=
  ⟨-sin p.phi * sin p.theta, cos p.phi, -sin p.phi * cos p.theta⟩

/-- Camera-space z-axis (world coordinates) of the lookAt orientation:
the negated look direction (THREE cameras look down their local -z). -/
def camZAxis (p : CameraRotation) : Vec3 :=
  ⟨-(cos p.phi * sin p.theta), -sin p.phi, -(cos p.phi * cos p.theta)⟩

/-- Apply the camera's matrixWorldInverse (transpose of the orthonormal
lookAt rotation; the camera is at the origin so there is no translation). -/
def toCam (cam : PerspectiveCamera) (v : Vec3) : Vec3 :=
  ⟨v.dot (camXAxis cam.pose), v.dot (camYAxis cam.pose), v.dot (camZAxis cam.pose)⟩

/-- Apply the camera's matrixWorld rotation (columns are the camera axes). -/
def fromCam (cam : PerspectiveCamera) (p : Vec3) : Vec3 :=
  ⟨p.x * (camXAxis cam.pose).x + p.y * (camYAxis cam.pose).x + p.z * (camZAxis cam.pose).x,
   p.x * (camXAxis cam.pose).y + p.y * (camYAxis cam.pose).y + p.z * (camZAxis cam.pose).y,
   p.x * (camXAxis cam.pose).z + p.y * (camYAxis cam.pose).z + p.z * (camZAxis cam.pose).z⟩

/-- The camera field of view in radians (camera.fov * Math.PI / 180). -/
def fovRadians (cam : PerspectiveCamera) : ℝ :=
  cam.fov * (π / 180)

/-- tan of half the vertical field of view, the `top/near` ratio of the
THREE perspective projection frustum. -/
def halfFovTan (cam : PerspectiveCamera) : ℝ :=
  tan (fovRadians cam / 2)

/-- Entry (2,2) of the THREE perspective projection matrix:
-(far + near) / (far - near). -/
def projCoefC (cam : PerspectiveCamera) : ℝ :=
  -(cam.far + cam.near) / (cam.far - cam.near)

/-- Entry (2,3) of the THREE perspective projection matrix:
-(2 * far * near) / (far - near). -/
def projCoefD (cam : PerspectiveCamera) : ℝ :=
  -(2 * cam.far * cam.near) / (cam.far - cam.near)

/-- Embedding of THREE.Vector3.project(camera): transform to camera space,
apply the symmetric perspective projection matrix and the perspective
divide.  Returns normalized device coordinates (clip space after divide). -/
def projectToNDC (cam : PerspectiveCamera) (v : Vec3) : Vec3 :=
  let p := toCam cam v
  ⟨(p.x / (cam.aspect * halfFovTan cam)) / (-p.z),
   (p.y / halfFovTan cam) / (-p.z),
   (projCoefC cam * p.z + projCoefD cam) / (-p.z)⟩

/-- Embedding of THREE.Vector3.unproject(camera) on an NDC point: invert the
perspective divide and projection matrix (solved symbolically), then apply
the camera world matrix. -/
def unprojectNDC (cam : PerspectiveCamera) (n : Vec3) : Vec3 :=
  let pz := -projCoefD cam / (projCoefC cam + n.z)
  let px := n.x * (cam.aspect * halfFovTan cam) * (-pz)
  let py := n.y * halfFovTan cam * (-pz)
  fromCam cam ⟨px, py, pz⟩

/-- Embedding of THREE.Raycaster.setFromCamera for a perspective camera:
ray.direction = unproject(ndcX, ndcY, 0.5) - origin, normalized (the camera
and hence the ray origin is at the world origin). -/
def raycastDirection (cam : PerspectiveCamera) (ndcX ndcY : ℝ) : Vec3 :=
  (unprojectNDC cam ⟨ndcX, ndcY, 0.5⟩).normalize

/-- Embedding of screenToWorldDirection (annotationGeometry.ts, lines 28-61).
Converts a screen position to NDC, casts a ray through it, and converts the
world-space ray direction to spherical angles theta = atan2(dir.x, dir.z),
phi = asin(dir.y).  The trailing camera-rotation parameter is unused in the
source and kept for signature fidelity. -/
def screenToWorldDirection (screenX screenY screenWidth screenHeight : ℝ)
    (camera : PerspectiveCamera) (_cameraRot : CameraRotation) :
    Option WorldDirection :=
  let ndcX := (screenX / screenWidth) * 2 - 1
  let ndcY := -(screenY / screenHeight) * 2 + 1
  let rayDirection := (raycastDirection camera ndcX ndcY).normalize
  some ⟨arcsin rayDirection.y, atan2 rayDirection.x rayDirection.z⟩

open Classical in
/-- Embedding of worldDirectionToScreen (annotationGeometry.ts, lines
72-116).  Rebuilds the direction vector from (phi, theta), projects through
the camera, converts NDC to pixels, and culls points behind the camera
(clip z > 1) or far outside the frustum (clip |x| > 3 or |y| > 3). -/
def worldDirectionToScreen (w : WorldDirection) (screenWidth screenHeight : ℝ)
    (camera : PerspectiveCamera) : Option (ℝ × ℝ) :=
  let direction := (dirOfAngles w.phi w.theta).normalize
  let vector := projectToNDC camera direction
  let x := (vector.x + 1) * screenWidth / 2
  let y := (-vector.y + 1) * screenHeight / 2
  if 1 < vector.z then none
  else if 3 < |vector.x| ∨ 3 < |vector.y| then none
  else some (x, y)

/-- Embedding of legacyBoxToWorldDirection (annotationGeometry.ts, lines
126-176).  Maps the box center to [-1,1], converts it to a camera-relative
angular offset atan2(ndc, 1) * (fov / 2) with an assumed 75-degree fov, adds
a recorded camera pose with the phi sum clamped to [-pi/2, pi/2], and
defaults to { phi: 0, theta: 0 } when no pose is recorded. -/
def legacyBoxToWorldDirection (box : LegacyBox)
    (cameraRotation : Option CameraRotation) : WorldDirection :=
  let centerX := box.x + box.width / 2
  let centerY := box.y + box.height / 2
  let ndcX := (centerX - 0.5) * 2
  let ndcY := -(centerY - 0.5) * 2
  let fov := 75 * (π / 180)
  match cameraRotation with
  | some cr =>
      let cameraRelativeTheta := atan2 ndcX 1 * (fov / 2)
      let cameraRelativePhi := atan2 ndcY 1 * (fov / 2)
      let worldTheta := cr.theta + cameraRelativeTheta
      let worldPhi := max (-(π / 2)) (min (π / 2) (cr.phi + cameraRelativePhi))
      ⟨worldPhi, worldTheta⟩
  | none => ⟨0, 0⟩

/-- Embedding of getAnnotationBox (annotationGeometry.ts, lines 189-219).
Projects the direction to screen (propagating null), then sizes a square
box from the angular size and the vertical pixels-per-radian of the camera,
with a 20 pixel minimum edge. -/
def getAnnotationBox (w : WorldDirection) (screenWidth screenHeight : ℝ)
    (camera : PerspectiveCamera) (boxSizeDegrees : ℝ) : Option ScreenBox :=
  match worldDirectionToScreen w screenWidth screenHeight camera with
  | none => none
  | some center =>
      let pixelsPerRadian := screenHeight / (2 * tan (fovRadians camera / 2))
      let boxSizeRadians := boxSizeDegrees * (π / 180)
      let boxSizePixels := boxSizeRadians * pixelsPerRadian
      let boxWidth := max 20 boxSizePixels
      let boxHeight := max 20 boxSizePixels
      some ⟨center.1 - boxWidth / 2, center.2 - boxHeight / 2, boxWidth, boxHeight⟩

/-- The box edge length of getAnnotationBox, written with the grouping used
in the specification: max(20, s * (pi/180) * H / (2 * tan(fovRadians/2))). -/
def boxEdge (screenHeight : ℝ) (camera : PerspectiveCamera) (s : ℝ) : ℝ :=
  max 20 (s * (π / 180) * screenHeight / (2 * tan (fovRadians camera / 2)))

/-- Embedding of the Annotation record (src/src/types.ts), restricted to the
fields the geometry engine, migrator and overlay read: identity, the video
timestamp, display text (notes, standing in for the notes/label pair),
colour, and the three optional location fields. -/
structure AnnotationData where
  id : String
  videoTime : ℝ
  notes : String
  colour : String
  worldDirection : Option WorldDirection
  box : Option LegacyBox
  cameraRotation : Option CameraRotation

/-- One step of migrateLegacyAnnotations (storage.ts, lines 11-34): an
annotation that already has a worldDirection is returned as-is; one with a
box but no worldDirection gets a worldDirection computed from the box and
the recorded camera rotation attached; anything else is returned as-is. -/
def migrateOne (ann : AnnotationData) : AnnotationData :=
  match ann.worldDirection with
  | some _ => ann
  | none =>
      match ann.box with
      | some b =>
          { ann with worldDirection := some (legacyBoxToWorldDirection b ann.cameraRotation) }
      | none => ann

/-- Embedding of migrateLegacyAnnotations: map the per-annotation migration
step over the collection. -/
def migrateLegacyAnnotations (annotations : List AnnotationData) : List AnnotationData :=
  annotations.map migrateOne

open Classical in
/-- Embedding of the activeAnnotations selection (types.ts, lines 330-335):
annotations whose video timestamp is strictly within 1.0 second of the
current playback time. -/
def activeAnnotations (annotations : List AnnotationData) (currentVideoTime : ℝ) :
    List AnnotationData :=
  annotations.filter (fun ann => decide (|ann.videoTime - currentVideoTime| < 1.0))

/-- A sample annotation carrying only a video timestamp, used for the
concrete scenarios of the specification. -/
def sampleAnn (t : ℝ) : AnnotationData :=
  ⟨"a", t, "", "red", none, none, none⟩

/-- The pending-annotation value recorded for the screenshot compositor
(pendingAnnotationForScreenshot in types.ts): the confirmed direction, the
normalized drag box, the final colour and the label text.  All four fields
are always populated by handleFormSubmit before capture starts. -/
structure PendingCaptureData where
  worldDirection : WorldDirection
  box : LegacyBox
  colour : String
  notes : String

/-- The primitives that can appear in the composited screenshot raster:
the live video frame, an active annotation box with its label, the pending
annotation box (final colour, translucent fill, label), the dashed
in-progress drag rectangle, and the confirmation form (the last two can
never be emitted by the capture path; they are included so their absence is
expressible). -/
inductive CaptureItem where
  | videoFrame : CaptureItem
  | annotationBox : String → String → ℝ → ℝ → ℝ → ℝ → CaptureItem
  | pendingBox : String → String → ℝ → ℝ → ℝ → ℝ → CaptureItem
  | dragRectangle : ℝ → ℝ → ℝ → ℝ → CaptureItem
  | confirmationForm : CaptureItem

/-- The drawing of one active annotation during the manual capture redraw
(types.ts handleFormSubmit STEP 6, lines 824-858): a world-space annotation
is drawn only if it projects on screen and carries a legacy box (the box
centered on the projected point); a legacy annotation is drawn from its box
directly; otherwise nothing is drawn. -/
def drawActiveOne (cam : PerspectiveCamera) (screenW screenH : ℝ)
    (ann : AnnotationData) : Option CaptureItem :=
  match ann.worldDirection with
  | some wd =>
      match worldDirectionToScreen wd screenW screenH cam, ann.box with
      | some p, some b =>
          some (CaptureItem.annotationBox ann.colour ann.notes
            (p.1 - b.width * screenW / 2) (p.2 - b.height * screenH / 2)
            (b.width * screenW) (b.height * screenH))
      | _, _ => none
  | none =>
      match ann.box with
      | some b =>
          some (CaptureItem.annotationBox ann.colour ann.notes
            (b.x * screenW) (b.y * screenH) (b.width * screenW) (b.height * screenH))
      | none => none

/-- The overlay canvas content at capture time: the manual STEP 6 redraw
clears the canvas, draws all active annotations, then draws the pending
annotation last (in its final colour with its label), provided the camera
is available and the pending direction projects on screen.  The form was
dismissed at STEP 1 and the drag rectangle cleared at STEP 2, and the
per-tick redraw loop is suspended, so neither can be on the canvas. -/
def captureOverlay (camera : Option PerspectiveCamera) (active : List AnnotationData)
    (pending : PendingCaptureData) (screenW screenH : ℝ) : List CaptureItem :=
  match camera with
  | none => []
  | some cam =>
      active.filterMap (drawActiveOne cam screenW screenH) ++
      (match worldDirectionToScreen pending.worldDirection screenW screenH cam with
       | some p =>
           [CaptureItem.pendingBox pending.colour pending.notes
             (p.1 - pending.box.width * screenW / 2) (p.2 - pending.box.height * screenH / 2)
             (pending.box.width * screenW) (pending.box.height * screenH)]
       | none => [])

/-- The composited screenshot (captureScreenshot, types.ts lines 489-550):
the renderer canvas (live video frame) is drawn first, then the overlay
canvas on top. -/
def captureComposite (camera : Option PerspectiveCamera) (active : List AnnotationData)
    (pending : PendingCaptureData) (screenW screenH : ℝ) : List CaptureItem :=
  CaptureItem.videoFrame :: captureOverlay camera active pending screenW screenH

/-- The composited image contains the pending annotation box. -/
def containsPendingBox (l : List CaptureItem) : Prop :=
  ∃ c n px py w h, CaptureItem.pendingBox c n px py w h ∈ l

/-- The overlay interaction state read and written by handleMouseUp
(types.ts): the drawing flag, the in-progress pixel rectangle, the pending
annotation data, the confirmation-form flag, and the persisted store. -/
structure OverlayState where
  isDrawing : Bool
  currentBox : Option ScreenBox
  pendingBox : Option LegacyBox
  pendingWorldDirection : Option WorldDirection
  showForm : Bool
  persisted : List AnnotationData

/-- The environment handleMouseUp consults: component props, the released
mouse button, the canvas element, whether the video is currently playing,
the camera provider results, and the viewport size. -/
structure MouseUpEnv where
  annotationMode : Bool
  disableInteractions : Bool
  button : ℕ
  canvasPresent : Bool
  videoPlaying : Bool
  camera : Option PerspectiveCamera
  cameraRot : Option CameraRotation
  width : ℝ
  height : ℝ

/-- The outcome of handleMouseUp: the successor state, the console error
message if one was logged, and whether the video-pause callback fired. -/
structure MouseUpResult where
  state : OverlayState
  loggedError : Option String
  pauseRequested : Bool

/-- Embedding of handleMouseUp (types.ts, lines 391-459).  Pass-through
unless this is a right-button release of an in-progress annotation drag;
then the drawing flag is dropped, the video is paused if still playing, and
the create either aborts with a logged error (no current box or canvas is a
silent return; missing camera or camera rotation, or a failed conversion,
log and return) or stores the pending normalized box and world direction
and opens the confirmation form. -/
def handleMouseUp (env : MouseUpEnv) (s : OverlayState) : MouseUpResult :=
  if ¬env.annotationMode ∨ ¬s.isDrawing ∨ env.disableInteractions ∨ env.button ≠ 2 then
    ⟨s, none, false⟩
  else
    let s1 := { s with isDrawing := false }
    match s.currentBox, env.canvasPresent with
    | some box, true =>
        let pause := env.videoPlaying
        (match env.camera, env.cameraRot with
         | some camera, some cameraRot =>
             let boxCenterX := box.x + box.width / 2
             let boxCenterY := box.y + box.height / 2
             (match screenToWorldDirection boxCenterX boxCenterY env.width env.height
                 camera cameraRot with
              | some wd =>
                  ⟨{ s1 with
                      pendingBox := some ⟨box.x / env.width, box.y / env.height,
                        box.width / env.width, box.height / env.height⟩,
                      pendingWorldDirection := some wd,
                      showForm := true }, none, pause⟩
              | none =>
                  ⟨s1, some "Failed to convert screen coordinates to world direction", pause⟩)
         | _, _ =>
             ⟨s1, some "Cannot create annotation: camera or camera rotation not available",
              pause⟩)
    | _, _ => ⟨s1, none, false⟩

end

/-! Basic vector lemmas. -/

lemma Vec3.length_nonneg (v : Vec3) : 0 ≤ v.length :=
  Real.sqrt_nonneg _

lemma Vec3.sq_length (v : Vec3) : v.length ^ 2 = v.x ^ 2 + v.y ^ 2 + v.z ^ 2 :=
  Real.sq_sqrt (by positivity)

lemma Vec3.abs_z_le_length (v : Vec3) : |v.z| ≤ v.length := by
  rw [← Real.sqrt_sq_eq_abs]
  exact Real.sqrt_le_sqrt (by nlinarith [sq_nonneg v.x, sq_nonneg v.y])

lemma Vec3.length_normalize (v : Vec3) (h : v.length ≠ 0) : v.normalize.length = 1 := by
  have key : v.normalize.x ^ 2 + v.normalize.y ^ 2 + v.normalize.z ^ 2 = 1 := by
    simp only [Vec3.normalize]
    field_simp
    linarith [Vec3.sq_length v]
  have hlen : v.normalize.length = sqrt (v.normalize.x ^ 2 + v.normalize.y ^ 2 +
      v.normalize.z ^ 2) := rfl
  rw [hlen, key, Real.sqrt_one]

lemma Vec3.normalize_of_length_one (v : Vec3) (h : v.length = 1) : v.normalize = v := by
  unfold Vec3.normalize
  rw [h]
  ext <;> simp

lemma Vec3.normalize_normalize (v : Vec3) : v.normalize.normalize = v.normalize := by
  by_cases h : v.length = 0
  · unfold Vec3.normalize
    rw [h]
    simp [Vec3.length, Real.sqrt_eq_zero]
  · exact Vec3.normalize_of_length_one _ (Vec3.length_normalize v h)

/-! atan2 lemmas: range and the sine/cosine characterization. -/

lemma atan2_total (a b : ℝ) :
    sqrt (a ^ 2 + b ^ 2) * sin (atan2 a b) = a ∧
    sqrt (a ^ 2 + b ^ 2) * cos (atan2 a b) = b := by
  unfold atan2
  rcases lt_trichotomy b 0 with hb | hb | hb
  · have hb' : b ≠ 0 := ne_of_lt hb
    have hr : sqrt (1 + (a / b) ^ 2) = sqrt (a ^ 2 + b ^ 2) / (-b) := by
      rw [show (1 : ℝ) + (a / b) ^ 2 = (a ^ 2 + b ^ 2) / b ^ 2 by field_simp; ring,
        Real.sqrt_div (by positivity), Real.sqrt_sq_eq_abs, abs_of_neg hb]
    have h0 : (0 : ℝ) < sqrt (a ^ 2 + b ^ 2) := by
      apply Real.sqrt_pos.mpr
      nlinarith [sq_nonneg a]
    rw [if_neg (by linarith), if_pos hb]
    by_cases ha : 0 ≤ a
    · rw [if_pos ha]
      constructor
      · rw [sin_add, Real.sin_pi, Real.cos_pi, Real.sin_arctan, hr]
        field_simp
        ring
      · rw [cos_add, Real.sin_pi, Real.cos_pi, Real.cos_arctan, hr]
        field_simp
    · rw [if_neg ha]
      constructor
      · rw [sin_sub, Real.sin_pi, Real.cos_pi, Real.sin_arctan, hr]
        field_simp
        ring
      · rw [cos_sub, Real.sin_pi, Real.cos_pi, Real.cos_arctan, hr]
        field_simp
  · subst hb
    rw [if_neg (lt_irrefl 0), if_neg (lt_irrefl 0)]
    rcases lt_trichotomy a 0 with ha | ha | ha
    · rw [if_neg (by linarith), if_pos ha]
      constructor
      · rw [Real.sin_neg, Real.sin_pi_div_two]
        rw [show a ^ 2 + (0 : ℝ) ^ 2 = a ^ 2 by ring, Real.sqrt_sq_eq_abs, abs_of_neg ha]
        ring
      · rw [Real.cos_neg, Real.cos_pi_div_two]
        ring
    · subst ha
      rw [if_neg (lt_irrefl 0), if_neg (lt_irrefl 0)]
      simp
    · rw [if_pos ha]
      constructor
      · rw [Real.sin_pi_div_two,
          show a ^ 2 + (0 : ℝ) ^ 2 = a ^ 2 by ring, Real.sqrt_sq_eq_abs, abs_of_pos ha]
        ring
      · rw [Real.cos_pi_div_two]
        ring
  · have hb' : b ≠ 0 := ne_of_gt hb
    have hr : sqrt (1 + (a / b) ^ 2) = sqrt (a ^ 2 + b ^ 2) / b := by
      rw [show (1 : ℝ) + (a / b) ^ 2 = (a ^ 2 + b ^ 2) / b ^ 2 by field_simp; ring,
        Real.sqrt_div (by positivity), Real.sqrt_sq_eq_abs, abs_of_pos hb]
    have h0 : (0 : ℝ) < sqrt (a ^ 2 + b ^ 2) := by
      apply Real.sqrt_pos.mpr
      nlinarith [sq_nonneg a]
    rw [if_pos hb]
    constructor
    · rw [Real.sin_arctan, hr]
      field_simp
    · rw [Real.cos_arctan, hr]
      field_simp

lemma atan2_mem_Ioc (a b : ℝ) : atan2 a b ∈ Set.Ioc (-π) π := by
  have hpi : 0 < π := Real.pi_pos
  have h1 := Real.arctan_lt_pi_div_two (a / b)
  have h2 := Real.neg_pi_div_two_lt_arctan (a / b)
  unfold atan2
  split_ifs with hx hx2 hy hy1 hy2
  · constructor <;> linarith
  · have ht : a / b ≤ 0 := div_nonpos_iff.mpr (Or.inl ⟨hy, hx2.le⟩)
    have hle : arctan (a / b) ≤ 0 := by
      have := Real.arctan_strictMono.monotone ht
      rwa [Real.arctan_zero] at this
    constructor <;> linarith
  · have ht : 0 < a / b := div_pos_iff.mpr (Or.inr ⟨lt_of_not_ge hy, hx2⟩)
    have hgt : 0 < arctan (a / b) := by
      have := Real.arctan_strictMono ht
      rwa [Real.arctan_zero] at this
    constructor <;> linarith
  · constructor <;> linarith
  · constructor <;> linarith
  · constructor <;> linarith

lemma atan2_one (y : ℝ) : atan2 y 1 = arctan y := by
  unfold atan2
  rw [if_pos one_pos, div_one]

/-! Spherical direction lemmas. -/

lemma dirOfAngles_sq_sum (phi theta : ℝ) :
    (dirOfAngles phi theta).x ^ 2 + (dirOfAngles phi theta).y ^ 2 +
      (dirOfAngles phi theta).z ^ 2 = 1 := by
  have h1 := Real.sin_sq_add_cos_sq phi
  have h2 := Real.sin_sq_add_cos_sq theta
  simp only [dirOfAngles]
  nlinarith [h1, h2]

lemma dirOfAngles_length (phi theta : ℝ) : (dirOfAngles phi theta).length = 1 := by
  unfold Vec3.length
  rw [dirOfAngles_sq_sum, Real.sqrt_one]

/-- Reconstruction: for a unit vector u, the spherical angles
(arcsin u.y, atan2 u.x u.z) rebuild exactly u. -/
lemma dirOfAngles_arcsin_atan2 (u : Vec3)
    (hu : u.x ^ 2 + u.y ^ 2 + u.z ^ 2 = 1) :
    dirOfAngles (arcsin u.y) (atan2 u.x u.z) = u := by
  have hy2 : u.y ^ 2 ≤ 1 := by nlinarith [sq_nonneg u.x, sq_nonneg u.z]
  have hy1 : -1 ≤ u.y := by nlinarith
  have hy1' : u.y ≤ 1 := by nlinarith
  have hcos : cos (arcsin u.y) = sqrt (u.x ^ 2 + u.z ^ 2) := by
    rw [Real.cos_arcsin]
    congr 1
    linarith
  obtain ⟨hs, hc⟩ := atan2_total u.x u.z
  ext
  · show cos (arcsin u.y) * sin (atan2 u.x u.z) = u.x
    rw [hcos, hs]
  · exact Real.sin_arcsin hy1 hy1'
  · show cos (arcsin u.y) * cos (atan2 u.x u.z) = u.z
    rw [hcos, hc]

/-! Camera-space computations. -/

lemma toCam_id (W H : ℝ) (v : Vec3) :
    toCam (appCamera W H ⟨0, 0⟩) v = ⟨-v.x, v.y, -v.z⟩ := by
  ext <;> simp [toCam, appCamera, camXAxis, camYAxis, camZAxis, Vec3.dot]

lemma fromCam_id (W H : ℝ) (p : Vec3) :
    fromCam (appCamera W H ⟨0, 0⟩) p = ⟨-p.x, p.y, -p.z⟩ := by
  ext <;> simp [fromCam, appCamera, camXAxis, camYAxis, camZAxis]

/-- Unfolded form of worldDirectionToScreen with the two culling tests
merged into a single disjunction. -/
lemma worldDirectionToScreen_spec (w : WorldDirection) (W H : ℝ)
    (cam : PerspectiveCamera) :
    worldDirectionToScreen w W H cam =
      (if 1 < (projectToNDC cam ((dirOfAngles w.phi w.theta).normalize)).z ∨
          3 < |(projectToNDC cam ((dirOfAngles w.phi w.theta).normalize)).x| ∨
          3 < |(projectToNDC cam ((dirOfAngles w.phi w.theta).normalize)).y| then none
       else some (((projectToNDC cam ((dirOfAngles w.phi w.theta).normalize)).x + 1) * W / 2,
         (-(projectToNDC cam ((dirOfAngles w.phi w.theta).normalize)).y + 1) * H / 2)) := by
  simp only [worldDirectionToScreen]
  split_ifs with h1 h2 h3 <;> first | rfl | tauto

/-- A direction exactly opposite the camera's look direction lands in camera
space at (0, 0, 1), whose clip depth exceeds 1, so it is culled. -/
lemma worldDirectionToScreen_opposite (W H : ℝ) (cam : PerspectiveCamera)
    (hn : 0 < cam.near) (hf : cam.near < cam.far) :
    worldDirectionToScreen ⟨-cam.pose.phi, cam.pose.theta + π⟩ W H cam = none := by
  have hdir : dirOfAngles (-cam.pose.phi) (cam.pose.theta + π) =
      ⟨-(cos cam.pose.phi * sin cam.pose.theta), -sin cam.pose.phi,
       -(cos cam.pose.phi * cos cam.pose.theta)⟩ := by
    ext <;> simp [dirOfAngles, Real.sin_add, Real.cos_add]
  have hnorm : (dirOfAngles (-cam.pose.phi) (cam.pose.theta + π)).normalize =
      dirOfAngles (-cam.pose.phi) (cam.pose.theta + π) :=
    Vec3.normalize_of_length_one _ (dirOfAngles_length _ _)
  have hp : toCam cam (dirOfAngles (-cam.pose.phi) (cam.pose.theta + π)) =
      ⟨0, 0, 1⟩ := by
    rw [hdir]
    ext
    · show Vec3.dot _ (camXAxis cam.pose) = 0
      simp only [Vec3.dot, camXAxis]
      ring
    · show Vec3.dot _ (camYAxis cam.pose) = 0
      simp only [Vec3.dot, camYAxis]
      linear_combination (sin cam.pose.phi * cos cam.pose.phi) *
        (Real.sin_sq_add_cos_sq cam.pose.theta)
    · show Vec3.dot _ (camZAxis cam.pose) = 1
      simp only [Vec3.dot, camZAxis]
      linear_combination (cos cam.pose.phi) ^ 2 * (Real.sin_sq_add_cos_sq cam.pose.theta) +
        Real.sin_sq_add_cos_sq cam.pose.phi
  have hz : (projectToNDC cam ((dirOfAngles (-cam.pose.phi) (cam.pose.theta + π)).normalize)).z =
      -(projCoefC cam + projCoefD cam) := by
    rw [hnorm]
    simp only [projectToNDC, hp]
    norm_num
    ring
  have hval : -(projCoefC cam + projCoefD cam) =
      (cam.far + cam.near + 2 * cam.far * cam.near) / (cam.far - cam.near) := by
    unfold projCoefC projCoefD
    ring
  have hgt : 1 < -(projCoefC cam + projCoefD cam) := by
    rw [hval]
    rw [lt_div_iff₀ (by linarith)]
    nlinarith
  have hw : (⟨-cam.pose.phi, cam.pose.theta + π⟩ : WorldDirection).phi = -cam.pose.phi := rfl
  have hw2 : (⟨-cam.pose.phi, cam.pose.theta + π⟩ : WorldDirection).theta =
      cam.pose.theta + π := rfl
  simp only [worldDirectionToScreen, hw, hw2]
  rw [if_pos (by rw [hz]; exact hgt)]

/-- Closed form of unprojectNDC for the application camera at the identity
pose on an NDC point with depth 0.5: the camera-space depth evaluates to
-4000/10003 and the world result flips the x and z signs. -/
lemma unprojectNDC_id (W H nx ny : ℝ) :
    unprojectNDC (appCamera W H ⟨0, 0⟩) ⟨nx, ny, 0.5⟩ =
      ⟨-(nx * ((W / H) * halfFovTan (appCamera W H ⟨0, 0⟩)) * (4000 / 10003)),
       ny * halfFovTan (appCamera W H ⟨0, 0⟩) * (4000 / 10003),
       4000 / 10003⟩ := by
  have hpz : -projCoefD (appCamera W H ⟨0, 0⟩) /
      (projCoefC (appCamera W H ⟨0, 0⟩) + (0.5 : ℝ)) = -(4000 / 10003) := by
    norm_num [projCoefC, projCoefD, appCamera]
  simp only [unprojectNDC, fromCam_id]
  rw [hpz]
  ext <;> simp [appCamera]

/-- Closed form of projectToNDC for the application camera at the identity
pose. -/
lemma projectToNDC_id (W H : ℝ) (v : Vec3) :
    projectToNDC (appCamera W H ⟨0, 0⟩) v =
      ⟨(-v.x / ((W / H) * halfFovTan (appCamera W H ⟨0, 0⟩))) / v.z,
       (v.y / halfFovTan (appCamera W H ⟨0, 0⟩)) / v.z,
       (projCoefC (appCamera W H ⟨0, 0⟩) * (-v.z) + projCoefD (appCamera W H ⟨0, 0⟩)) / v.z⟩ := by
  simp only [projectToNDC, toCam_id]
  ext <;> simp [appCamera]

/-- Round trip at the identity pose: converting a pointer NDC position to a
ray, reading the ray direction back as spherical angles, and reprojecting
through the camera reproduces the NDC position exactly, hence the original
pixel position. -/
lemma roundtrip_id (W H nx ny : ℝ) (hW : 0 < W) (hH : 0 < H)
    (hnx : |nx| < 1) (hny : |ny| < 1) :
    worldDirectionToScreen
      ⟨arcsin ((raycastDirection (appCamera W H ⟨0, 0⟩) nx ny).normalize.y),
       atan2 ((raycastDirection (appCamera W H ⟨0, 0⟩) nx ny).normalize.x)
         ((raycastDirection (appCamera W H ⟨0, 0⟩) nx ny).normalize.z)⟩
      W H (appCamera W H ⟨0, 0⟩) =
    some ((nx + 1) * W / 2, (-ny + 1) * H / 2) := by
  have ht : 0 < halfFovTan (appCamera W H ⟨0, 0⟩) := by
    unfold halfFovTan fovRadians appCamera
    apply Real.tan_pos_of_pos_of_lt_pi_div_two
    · positivity
    · linarith [Real.pi_pos]
  set t := halfFovTan (appCamera W H ⟨0, 0⟩) with ht_def
  set k : ℝ := (4000 : ℝ) / 10003 with hk_def
  have hk : (0 : ℝ) < k := by norm_num [hk_def]
  set w : Vec3 := ⟨-(nx * ((W / H) * t) * k), ny * t * k, k⟩ with hw_def
  have hwz : w.z = k := rfl
  have hLk : k ≤ w.length := by
    have h := Vec3.abs_z_le_length w
    rwa [hwz, abs_of_pos hk] at h
  have hL : 0 < w.length := lt_of_lt_of_le hk hLk
  have hL0 : w.length ≠ 0 := ne_of_gt hL
  have hray : raycastDirection (appCamera W H ⟨0, 0⟩) nx ny = w.normalize := by
    unfold raycastDirection
    rw [unprojectNDC_id, ← ht_def, ← hk_def, ← hw_def]
  have hu : (raycastDirection (appCamera W H ⟨0, 0⟩) nx ny).normalize = w.normalize := by
    rw [hray, Vec3.normalize_normalize]
  have hulen : w.normalize.length = 1 := Vec3.length_normalize w hL0
  have husq : w.normalize.x ^ 2 + w.normalize.y ^ 2 + w.normalize.z ^ 2 = 1 := by
    have h := Vec3.sq_length w.normalize
    rw [hulen] at h
    linarith [h]
  have hrecon : dirOfAngles (arcsin w.normalize.y) (atan2 w.normalize.x w.normalize.z) =
      w.normalize := dirOfAngles_arcsin_atan2 _ husq
  have hnormu : (w.normalize).normalize = w.normalize :=
    Vec3.normalize_normalize w
  -- components of the normalized direction
  have hux : w.normalize.x = -(nx * ((W / H) * t) * k) / w.length := rfl
  have huy : w.normalize.y = ny * t * k / w.length := rfl
  have huz : w.normalize.z = k / w.length := rfl
  -- the projected NDC vector
  have hW0 : W ≠ 0 := ne_of_gt hW
  have hH0 : H ≠ 0 := ne_of_gt hH
  have ht0 : t ≠ 0 := ne_of_gt ht
  have hk0 : k ≠ 0 := ne_of_gt hk
  have ha0 : W / H ≠ 0 := ne_of_gt (div_pos hW hH)
  have hvec : projectToNDC (appCamera W H ⟨0, 0⟩) w.normalize =
      ⟨nx, ny, -projCoefC (appCamera W H ⟨0, 0⟩) +
        projCoefD (appCamera W H ⟨0, 0⟩) * (w.length / k)⟩ := by
    rw [projectToNDC_id, ← ht_def]
    ext
    · show -w.normalize.x / ((W / H) * t) / w.normalize.z = nx
      rw [hux, huz]
      field_simp
      try ring
    · show w.normalize.y / t / w.normalize.z = ny
      rw [huy, huz]
      field_simp
      try ring
    · show (projCoefC (appCamera W H ⟨0, 0⟩) * -w.normalize.z +
          projCoefD (appCamera W H ⟨0, 0⟩)) / w.normalize.z =
        -projCoefC (appCamera W H ⟨0, 0⟩) +
          projCoefD (appCamera W H ⟨0, 0⟩) * (w.length / k)
      rw [huz]
      field_simp
      try ring
  have hc : projCoefC (appCamera W H ⟨0, 0⟩) = -(10001 / 9999) := by
    norm_num [projCoefC, appCamera]
  have hd : projCoefD (appCamera W H ⟨0, 0⟩) = -(2000 / 9999) := by
    norm_num [projCoefD, appCamera]
  have hzval : -projCoefC (appCamera W H ⟨0, 0⟩) +
      projCoefD (appCamera W H ⟨0, 0⟩) * (w.length / k) ≤ 1 := by
    rw [hc, hd]
    have hratio : 1 ≤ w.length / k := (one_le_div hk).mpr hLk
    nlinarith [hratio]
  rw [worldDirectionToScreen_spec]
  rw [show (⟨arcsin ((raycastDirection (appCamera W H ⟨0, 0⟩) nx ny).normalize.y),
       atan2 ((raycastDirection (appCamera W H ⟨0, 0⟩) nx ny).normalize.x)
         ((raycastDirection (appCamera W H ⟨0, 0⟩) nx ny).normalize.z)⟩ :
       WorldDirection).phi =
     arcsin ((raycastDirection (appCamera W H ⟨0, 0⟩) nx ny).normalize.y) from rfl]
  rw [show (⟨arcsin ((raycastDirection (appCamera W H ⟨0, 0⟩) nx ny).normalize.y),
       atan2 ((raycastDirection (appCamera W H ⟨0, 0⟩) nx ny).normalize.x)
         ((raycastDirection (appCamera W H ⟨0, 0⟩) nx ny).normalize.z)⟩ :
       WorldDirection).theta =
     atan2 ((raycastDirection (appCamera W H ⟨0, 0⟩) nx ny).normalize.x)
       ((raycastDirection (appCamera W H ⟨0, 0⟩) nx ny).normalize.z) from rfl]
  rw [hu, hrecon, hnormu, hvec]
  rw [if_neg (by
    push_neg
    refine ⟨by simpa using hzval, ?_, ?_⟩
    · show |(⟨nx, ny, _⟩ : Vec3).x| ≤ 3
      show |nx| ≤ 3
      linarith [hnx.le, abs_nonneg nx]
    · show |(⟨nx, ny, _⟩ : Vec3).y| ≤ 3
      show |ny| ≤ 3
      linarith [hny.le, abs_nonneg ny])]
lemma wds_center (W H : ℝ) :
    worldDirectionToScreen ⟨0, 0⟩ W H (appCamera W H ⟨0, 0⟩) = some (W / 2, H / 2) := by
  have h1 : (dirOfAngles (0 : ℝ) (0 : ℝ)).normalize = ⟨0, 0, 1⟩ := by
    rw [Vec3.normalize_of_length_one _ (dirOfAngles_length 0 0)]
    ext <;> simp [dirOfAngles]
  have h2 : projectToNDC (appCamera W H ⟨0, 0⟩) ⟨0, 0, 1⟩ = ⟨0, 0, 8001 / 9999⟩ := by
    simp only [projectToNDC, toCam_id]
    ext <;> norm_num [projCoefC, projCoefD, appCamera]
  have hw : (⟨0, 0⟩ : WorldDirection).phi = 0 := rfl
  have hw2 : (⟨0, 0⟩ : WorldDirection).theta = 0 := rfl
  simp only [worldDirectionToScreen, hw, hw2, h1, h2]
  rw [if_neg (by norm_num), if_neg (by norm_num)]
  norm_num

/-! Claim theorems. -/

/-- C1: round trip for a visible point.  For every pointer position (x, y)
strictly inside a W-by-H viewport and the application's perspective camera
at the identity pose, worldDirectionToScreen applied to the direction
returned by screenToWorldDirection yields non-null screen coordinates
within 1 pixel of (x, y) (the round trip is in fact exact). -/
theorem C1_round_trip_visible_point (x y W H : ℝ)
    (hx0 : 0 < x) (hxW : x < W) (hy0 : 0 < y) (hyH : y < H) :
    ∃ wd p, screenToWorldDirection x y W H (appCamera W H ⟨0, 0⟩) ⟨0, 0⟩ = some wd ∧
      worldDirectionToScreen wd W H (appCamera W H ⟨0, 0⟩) = some p ∧
      |p.1 - x| ≤ 1 ∧ |p.2 - y| ≤ 1 := by
  have hW : 0 < W := lt_trans hx0 hxW
  have hH : 0 < H := lt_trans hy0 hyH
  have hnx : |(x / W) * 2 - 1| < 1 := by
    have h1 : 0 < x / W := div_pos hx0 hW
    have h2 : x / W < 1 := (div_lt_one hW).mpr hxW
    rw [abs_lt]
    constructor <;> linarith
  have hny : |-(y / H) * 2 + 1| < 1 := by
    have h1 : 0 < y / H := div_pos hy0 hH
    have h2 : y / H < 1 := (div_lt_one hH).mpr hyH
    rw [abs_lt]
    constructor <;> linarith
  have hmain := roundtrip_id W H ((x / W) * 2 - 1) (-(y / H) * 2 + 1) hW hH hnx hny
  refine ⟨_, (((x / W) * 2 - 1 + 1) * W / 2, (-(-(y / H) * 2 + 1) + 1) * H / 2),
    rfl, hmain, ?_, ?_⟩
  · have hx : ((x / W) * 2 - 1 + 1) * W / 2 = x := by
      field_simp
    rw [hx]
    simp
  · have hy : (-(-(y / H) * 2 + 1) + 1) * H / 2 = y := by
      field_simp
    rw [hy]
    simp

/-- Witness for C1 at the concrete pointer (960, 540) of a 1920x1080
viewport. -/
theorem C1_round_trip_visible_point_witness :
    (0 : ℝ) < 960 ∧ (960 : ℝ) < 1920 ∧ (0 : ℝ) < 540 ∧ (540 : ℝ) < 1080 ∧
    (∃ wd p,
      screenToWorldDirection 960 540 1920 1080 (appCamera 1920 1080 ⟨0, 0⟩) ⟨0, 0⟩ =
        some wd ∧
      worldDirectionToScreen wd 1920 1080 (appCamera 1920 1080 ⟨0, 0⟩) = some p ∧
      |p.1 - 960| ≤ 1 ∧ |p.2 - 540| ≤ 1) :=
  ⟨by norm_num, by norm_num, by norm_num, by norm_num,
   C1_round_trip_visible_point 960 540 1920 1080
     (by norm_num) (by norm_num) (by norm_num) (by norm_num)⟩

/-- C10: totality of screenToWorldDirection: for every pointer position,
viewport size and camera it returns a WorldDirection and never null, even
though its declared return type admits null. -/
theorem C10_screenToWorldDirection_total (x y W H : ℝ) (cam : PerspectiveCamera)
    (rot : CameraRotation) :
    ∃ wd, screenToWorldDirection x y W H cam rot = some wd :=
  ⟨_, rfl⟩

/-- C4: culling condition of worldDirectionToScreen.  For every direction
and camera (with a sane near/far frustum), the function returns null exactly
when the projected clip-space z exceeds 1 or the clip-space |x| or |y|
exceeds 3; otherwise it returns the pixel coordinates
((clipX + 1) * W / 2, (-clipY + 1) * H / 2); and a direction exactly
opposite the camera's forward direction always projects to null. -/
theorem C4_culling_condition (w : WorldDirection) (W H : ℝ) (cam : PerspectiveCamera)
    (hn : 0 < cam.near) (hf : cam.near < cam.far) :
    (worldDirectionToScreen w W H cam = none ↔
      1 < (projectToNDC cam ((dirOfAngles w.phi w.theta).normalize)).z ∨
      3 < |(projectToNDC cam ((dirOfAngles w.phi w.theta).normalize)).x| ∨
      3 < |(projectToNDC cam ((dirOfAngles w.phi w.theta).normalize)).y|) ∧
    (worldDirectionToScreen w W H cam = none ∨
      worldDirectionToScreen w W H cam =
        some (((projectToNDC cam ((dirOfAngles w.phi w.theta).normalize)).x + 1) * W / 2,
          (-(projectToNDC cam ((dirOfAngles w.phi w.theta).normalize)).y + 1) * H / 2)) ∧
    worldDirectionToScreen ⟨-cam.pose.phi, cam.pose.theta + π⟩ W H cam = none := by
  refine ⟨?_, ?_, worldDirectionToScreen_opposite W H cam hn hf⟩
  · rw [worldDirectionToScreen_spec]
    split_ifs with h
    · simp [h]
    · simp [h]
  · rw [worldDirectionToScreen_spec]
    split_ifs with h
    · exact Or.inl rfl
    · exact Or.inr rfl

/-- Witness for C4 at the application camera with identity pose. -/
theorem C4_culling_condition_witness :
    (0 : ℝ) < (appCamera 1920 1080 ⟨0, 0⟩).near ∧
    (appCamera 1920 1080 ⟨0, 0⟩).near < (appCamera 1920 1080 ⟨0, 0⟩).far ∧
    worldDirectionToScreen ⟨-(appCamera 1920 1080 ⟨0, 0⟩).pose.phi,
        (appCamera 1920 1080 ⟨0, 0⟩).pose.theta + π⟩ 1920 1080
        (appCamera 1920 1080 ⟨0, 0⟩) = none :=
  ⟨by norm_num [appCamera], by norm_num [appCamera],
   (C4_culling_condition ⟨0, 0⟩ 1920 1080 (appCamera 1920 1080 ⟨0, 0⟩)
     (by norm_num [appCamera]) (by norm_num [appCamera])).2.2⟩

/-- C3 counterexample: the claim's exact small-angle form is false on the
code.  For the box with center NDC x = 1 and a recorded identity pose, the
code yields theta = arctan(1) * (fov/2) = (pi/4) * (fov/2), which differs
from the claimed ndcX * (fov/2) = 1 * (fov/2). -/
theorem C3_small_angle_counterexample :
    (legacyBoxToWorldDirection ⟨0.5, 0.45, 1, 0.1⟩ (some ⟨0, 0⟩)).theta ≠
      1 * (75 * (π / 180) / 2) := by
  have h1 : (legacyBoxToWorldDirection ⟨0.5, 0.45, 1, 0.1⟩ (some ⟨0, 0⟩)).theta =
      arctan 1 * (75 * (π / 180) / 2) := by
    simp only [legacyBoxToWorldDirection]
    norm_num [atan2_one]
  rw [h1, Real.arctan_one]
  intro h
  have hc : (0 : ℝ) < 75 * (π / 180) / 2 := by positivity
  have h4 : π / 4 = 1 := mul_right_cancel₀ (ne_of_gt hc) h
  have := Real.pi_lt_d2
  linarith

/-- C3 amended: legacyBoxToWorldDirection contract with the angular offset
the code computes, arctan(ndc) * (fov/2) rather than ndc * (fov/2): with a
recorded pose the result adds the offsets to the pose, clamping phi to
[-pi/2, pi/2]; with no pose it is {phi: 0, theta: 0}, in particular for the
box {x: 0.45, y: 0.45, width: 0.1, height: 0.1}. -/
theorem C3_legacy_box_contract (box : LegacyBox) (cr : CameraRotation) :
    legacyBoxToWorldDirection box (some cr) =
      ⟨max (-(π / 2)) (min (π / 2)
         (cr.phi + arctan (-(box.y + box.height / 2 - 0.5) * 2) * (75 * (π / 180) / 2))),
       cr.theta + arctan ((box.x + box.width / 2 - 0.5) * 2) * (75 * (π / 180) / 2)⟩ ∧
    legacyBoxToWorldDirection box none = ⟨0, 0⟩ ∧
    legacyBoxToWorldDirection ⟨0.45, 0.45, 0.1, 0.1⟩ none = ⟨0, 0⟩ := by
  refine ⟨?_, rfl, rfl⟩
  simp only [legacyBoxToWorldDirection, atan2_one]

/-- C5 counterexample: the theta range invariant fails.  For the centered
legacy box and a recorded pose with theta = -5, the migrated direction has
theta = -5, outside [0, 2*pi). -/
theorem C5_theta_range_counterexample :
    (legacyBoxToWorldDirection ⟨0.45, 0.45, 0.1, 0.1⟩ (some ⟨0, -5⟩)).theta ∉
      Set.Ico (0 : ℝ) (2 * π) := by
  have h : (legacyBoxToWorldDirection ⟨0.45, 0.45, 0.1, 0.1⟩ (some ⟨0, -5⟩)).theta = -5 := by
    simp only [legacyBoxToWorldDirection]
    norm_num [atan2_one]
  rw [h]
  norm_num [Set.mem_Ico]

/-- C5 amended: well-formedness of produced directions.  Every direction
produced by screenToWorldDirection has phi in [-pi/2, pi/2] and theta in
(-pi, pi] (not [0, 2*pi)); every direction produced by
legacyBoxToWorldDirection has phi in [-pi/2, pi/2], while its theta is the
unnormalized sum pose.theta + arctan(ndc) * (fov/2) and is not confined to
[0, 2*pi). -/
theorem C5_direction_ranges (x y W H : ℝ) (cam : PerspectiveCamera)
    (rot : CameraRotation) (box : LegacyBox) (cro : Option CameraRotation) :
    (∃ wd, screenToWorldDirection x y W H cam rot = some wd ∧
      -(π / 2) ≤ wd.phi ∧ wd.phi ≤ π / 2 ∧ -π < wd.theta ∧ wd.theta ≤ π) ∧
    -(π / 2) ≤ (legacyBoxToWorldDirection box cro).phi ∧
    (legacyBoxToWorldDirection box cro).phi ≤ π / 2 := by
  have hpi : 0 < π := Real.pi_pos
  refine ⟨⟨_, rfl, ?_, ?_, ?_, ?_⟩, ?_, ?_⟩
  · exact Real.neg_pi_div_two_le_arcsin _
  · exact Real.arcsin_le_pi_div_two _
  · exact (atan2_mem_Ioc _ _).1
  · exact (atan2_mem_Ioc _ _).2
  · cases cro with
    | none =>
        show -(π / 2) ≤ (0 : ℝ)
        linarith
    | some cr =>
        exact le_max_left _ _
  · cases cro with
    | none =>
        show (0 : ℝ) ≤ π / 2
        linarith
    | some cr =>
        exact max_le (by linarith) (min_le_left _ _)

/-- C6: migration idempotence.  Migrating a collection twice equals
migrating it once, and the per-annotation step is the identity on records
that already carry a worldDirection or that carry no box, while a record
with a box and no worldDirection only gains the computed worldDirection. -/
theorem C6_migration_idempotent (xs : List AnnotationData) (a : AnnotationData) :
    migrateLegacyAnnotations (migrateLegacyAnnotations xs) = migrateLegacyAnnotations xs ∧
    migrateOne a =
      (match a.worldDirection, a.box with
       | some _, _ => a
       | none, some b =>
           { a with worldDirection := some (legacyBoxToWorldDirection b a.cameraRotation) }
       | none, none => a) := by
  have hstep : ∀ c : AnnotationData, migrateOne (migrateOne c) = migrateOne c := by
    intro c
    rcases hw : c.worldDirection with _ | wd
    · rcases hb : c.box with _ | b
      · simp [migrateOne, hw, hb]
      · simp [migrateOne, hw, hb]
    · simp [migrateOne, hw]
  constructor
  · unfold migrateLegacyAnnotations
    rw [List.map_map]
    exact List.map_congr_left (fun c _ => hstep c)
  · rcases hw : a.worldDirection with _ | wd
    · rcases hb : a.box with _ | b
      · simp [migrateOne, hw, hb]
      · simp [migrateOne, hw, hb]
    · simp [migrateOne, hw]

/-- C8: active-set membership.  An annotation is in the rendered active set
exactly when it is in the collection and its video timestamp is strictly
within 1.0 second of the current playback time; with annotations at video
times 10.0 and 12.5 and playback time 10.4, only the former is active. -/
theorem C8_active_set_membership (annotations : List AnnotationData)
    (t : ℝ) (a : AnnotationData) :
    (a ∈ activeAnnotations annotations t ↔
      a ∈ annotations ∧ |a.videoTime - t| < 1.0) ∧
    activeAnnotations [sampleAnn 10, sampleAnn 12.5] 10.4 = [sampleAnn 10] := by
  constructor
  · unfold activeAnnotations
    rw [List.mem_filter]
    simp
  · unfold activeAnnotations
    rw [List.filter_cons, List.filter_cons]
    norm_num [sampleAnn]
    rw [if_pos (show |(2 : ℝ) / 5| < 1 by
        rw [abs_of_nonneg (by norm_num : (0 : ℝ) ≤ 2 / 5)]
        norm_num),
      if_neg (show ¬|(21 : ℝ) / 10| < 1 by
        rw [abs_of_nonneg (by norm_num : (0 : ℝ) ≤ 21 / 10)]
        norm_num)]

/-- C7: getAnnotationBox contract.  It returns null exactly when
worldDirectionToScreen does; otherwise it returns a square box centered on
the projected point with both edges max(20, s*(pi/180)*H/(2*tan(fov/2)));
each edge is at least 20, and a larger box size never yields a smaller box
(for a positive viewport height, a valid field of view, and nonnegative
sizes). -/
theorem C7_annotation_box_contract (w : WorldDirection) (W H : ℝ)
    (cam : PerspectiveCamera) (s1 s2 : ℝ)
    (hH : 0 < H) (hfov0 : 0 < cam.fov) (hfov1 : cam.fov < 180)
    (hs0 : 0 ≤ s1) (hs12 : s1 ≤ s2) :
    (getAnnotationBox w W H cam s1 = none ↔ worldDirectionToScreen w W H cam = none) ∧
    (∀ c, worldDirectionToScreen w W H cam = some c →
      getAnnotationBox w W H cam s1 =
        some ⟨c.1 - boxEdge H cam s1 / 2, c.2 - boxEdge H cam s1 / 2,
          boxEdge H cam s1, boxEdge H cam s1⟩) ∧
    (∀ b, getAnnotationBox w W H cam s1 = some b → 20 ≤ b.width ∧ 20 ≤ b.height) ∧
    (∀ b1 b2, getAnnotationBox w W H cam s1 = some b1 →
      getAnnotationBox w W H cam s2 = some b2 →
      b1.width ≤ b2.width ∧ b1.height ≤ b2.height) := by
  have ht : 0 < tan (fovRadians cam / 2) := by
    apply Real.tan_pos_of_pos_of_lt_pi_div_two
    · unfold fovRadians
      positivity
    · unfold fovRadians
      nlinarith [mul_pos Real.pi_pos (sub_pos.mpr hfov1)]
  have hmono : boxEdge H cam s1 ≤ boxEdge H cam s2 := by
    unfold boxEdge
    apply max_le_max le_rfl
    have hc : (0 : ℝ) ≤ π / 180 * H := by positivity
    have hnum : s1 * (π / 180) * H ≤ s2 * (π / 180) * H := by
      calc s1 * (π / 180) * H = s1 * (π / 180 * H) := by ring
        _ ≤ s2 * (π / 180 * H) := mul_le_mul_of_nonneg_right hs12 hc
        _ = s2 * (π / 180) * H := by ring
    exact div_le_div_of_nonneg_right hnum (by linarith)
  rcases hwds : worldDirectionToScreen w W H cam with _ | c
  · have hnone : ∀ s : ℝ, getAnnotationBox w W H cam s = none := by
      intro s
      simp [getAnnotationBox, hwds]
    refine ⟨by simp [hnone s1, hwds], ?_, ?_, ?_⟩
    · intro c hc
      simp at hc
    · intro b hb
      rw [hnone s1] at hb
      simp at hb
    · intro b1 b2 h1 h2
      rw [hnone s1] at h1
      simp at h1
  · have hform : ∀ s : ℝ, getAnnotationBox w W H cam s =
        some ⟨c.1 - boxEdge H cam s / 2, c.2 - boxEdge H cam s / 2,
          boxEdge H cam s, boxEdge H cam s⟩ := by
      intro s
      simp only [getAnnotationBox, hwds]
      have hPQ : max (20 : ℝ) (s * (π / 180) * (H / (2 * tan (fovRadians cam / 2)))) =
          boxEdge H cam s := by
        unfold boxEdge
        congr 1
        ring
      rw [hPQ]
    refine ⟨by simp [hform s1, hwds], ?_, ?_, ?_⟩
    · intro d hd
      have hcd : c = d := Option.some.inj hd
      rw [← hcd]
      exact hform s1
    · intro b hb
      rw [hform s1] at hb
      have hbe := Option.some.inj hb
      rw [← hbe]
      exact ⟨le_max_left _ _, le_max_left _ _⟩
    · intro b1 b2 h1 h2
      rw [hform s1] at h1
      rw [hform s2] at h2
      have h1e := Option.some.inj h1
      have h2e := Option.some.inj h2
      rw [← h1e, ← h2e]
      exact ⟨hmono, hmono⟩

/-- Witness for C7 at the forward direction, a 1920x1080 viewport, the
application camera with identity pose, and box sizes 5 and 10 degrees. -/
theorem C7_annotation_box_contract_witness :
    (0 : ℝ) < 1080 ∧ (0 : ℝ) ≤ 5 ∧ (5 : ℝ) ≤ 10 ∧
    (getAnnotationBox ⟨0, 0⟩ 1920 1080 (appCamera 1920 1080 ⟨0, 0⟩) 5 = none ↔
      worldDirectionToScreen ⟨0, 0⟩ 1920 1080 (appCamera 1920 1080 ⟨0, 0⟩) = none) :=
  ⟨by norm_num, by norm_num, by norm_num,
   (C7_annotation_box_contract ⟨0, 0⟩ 1920 1080 (appCamera 1920 1080 ⟨0, 0⟩) 5 10
     (by norm_num) (by norm_num [appCamera]) (by norm_num [appCamera])
     (by norm_num) (by norm_num)).1⟩

/-- Every item the capture redraw emits for an active annotation is an
annotation box. -/
lemma drawActiveOne_shape (cam : PerspectiveCamera) (W H : ℝ) (ann : AnnotationData)
    (item : CaptureItem) (h : drawActiveOne cam W H ann = some item) :
    ∃ c n px py bw bh, item = CaptureItem.annotationBox c n px py bw bh := by
  unfold drawActiveOne at h
  split at h
  · split at h
    · exact ⟨_, _, _, _, _, _, (Option.some.inj h).symm⟩
    · exact absurd h (by simp)
  · split at h
    · exact ⟨_, _, _, _, _, _, (Option.some.inj h).symm⟩
    · exact absurd h (by simp)

/-- C2 counterexample: when the pending direction is behind the camera at
capture time (here the camera is at the identity pose and the confirmed
direction points at theta = pi, directly behind), the composited screenshot
contains no pending annotation box, refuting the claim that the pending box
is always present. -/
theorem C2_capture_counterexample :
    ¬containsPendingBox (captureComposite (some (appCamera 1920 1080 ⟨0, 0⟩)) []
      ⟨⟨0, π⟩, ⟨0.45, 0.45, 0.1, 0.1⟩, "red", "n"⟩ 1920 1080) := by
  have hop := worldDirectionToScreen_opposite 1920 1080 (appCamera 1920 1080 ⟨0, 0⟩)
    (by norm_num [appCamera]) (by norm_num [appCamera])
  have he : (⟨-(appCamera 1920 1080 ⟨0, 0⟩).pose.phi,
      (appCamera 1920 1080 ⟨0, 0⟩).pose.theta + π⟩ : WorldDirection) =
      (⟨0, π⟩ : WorldDirection) := by
    norm_num [appCamera]
  rw [he] at hop
  intro hcontains
  obtain ⟨cc, n, px, py, bw, bh, hmem⟩ := hcontains
  simp only [captureComposite, captureOverlay] at hmem
  rw [hop] at hmem
  simp at hmem

/-- C2 amended: the screenshot capture path composites the video frame
first and the overlay on top; the overlay holds the active annotation boxes
followed, last, by the pending annotation box in its final colour with its
label, provided the camera is available and the pending direction projects
on screen; and the composite never contains the confirmation form or an
in-progress drag rectangle. -/
theorem C2_capture_composite (camop : Option PerspectiveCamera)
    (cam : PerspectiveCamera) (active : List AnnotationData)
    (pending : PendingCaptureData) (W H : ℝ) (p : ℝ × ℝ)
    (hproj : worldDirectionToScreen pending.worldDirection W H cam = some p) :
    captureComposite (some cam) active pending W H =
      CaptureItem.videoFrame ::
        (active.filterMap (drawActiveOne cam W H) ++
         [CaptureItem.pendingBox pending.colour pending.notes
           (p.1 - pending.box.width * W / 2) (p.2 - pending.box.height * H / 2)
           (pending.box.width * W) (pending.box.height * H)]) ∧
    (∀ item ∈ captureComposite camop active pending W H,
      item ≠ CaptureItem.confirmationForm ∧
      ∀ r1 r2 r3 r4, item ≠ CaptureItem.dragRectangle r1 r2 r3 r4) := by
  constructor
  · simp only [captureComposite, captureOverlay, hproj]
  · intro item hitem
    rcases camop with _ | c
    · simp only [captureComposite, captureOverlay, List.mem_cons, List.not_mem_nil,
        or_false] at hitem
      subst hitem
      exact ⟨by simp, fun r1 r2 r3 r4 => by simp⟩
    · simp only [captureComposite, captureOverlay, List.mem_cons, List.mem_append] at hitem
      rcases hitem with hitem | hitem | hitem
      · subst hitem
        exact ⟨by simp, fun r1 r2 r3 r4 => by simp⟩
      · obtain ⟨a, _, hdraw⟩ := List.mem_filterMap.mp hitem
        obtain ⟨cc, n, px, py, bw, bh, hshape⟩ := drawActiveOne_shape c W H a item hdraw
        subst hshape
        exact ⟨by simp, fun r1 r2 r3 r4 => by simp⟩
      · rcases hws : worldDirectionToScreen pending.worldDirection W H c with _ | q <;>
          rw [hws] at hitem
        · simp at hitem
        · simp only [List.mem_cons, List.not_mem_nil, or_false] at hitem
          subst hitem
          exact ⟨by simp, fun r1 r2 r3 r4 => by simp⟩

/-- Witness for C2 with the pending direction at the forward direction,
which projects to the viewport center (960, 540). -/
theorem C2_capture_composite_witness :
    captureComposite (some (appCamera 1920 1080 ⟨0, 0⟩)) []
        ⟨⟨0, 0⟩, ⟨0.45, 0.45, 0.1, 0.1⟩, "red", "n"⟩ 1920 1080 =
      CaptureItem.videoFrame ::
        ([] ++
         [CaptureItem.pendingBox "red" "n" (960 - 0.1 * 1920 / 2) (540 - 0.1 * 1080 / 2)
           (0.1 * 1920) (0.1 * 1080)]) := by
  have hc : worldDirectionToScreen
      ((⟨⟨0, 0⟩, ⟨0.45, 0.45, 0.1, 0.1⟩, "red", "n"⟩ :
        PendingCaptureData)).worldDirection 1920 1080 (appCamera 1920 1080 ⟨0, 0⟩) =
      some (960, 540) := by
    rw [show ((⟨⟨0, 0⟩, ⟨0.45, 0.45, 0.1, 0.1⟩, "red", "n"⟩ :
      PendingCaptureData)).worldDirection = (⟨0, 0⟩ : WorldDirection) from rfl]
    rw [wds_center 1920 1080]
    norm_num
  have h := (C2_capture_composite none (appCamera 1920 1080 ⟨0, 0⟩) []
    ⟨⟨0, 0⟩, ⟨0.45, 0.45, 0.1, 0.1⟩, "red", "n"⟩ 1920 1080 (960, 540) hc).1
  rw [h]
  simp

/-- C9: abort atomicity on missing camera.  On a right-button release of an
in-progress drag (with a drawn rectangle and the video already paused, as
guaranteed on entry to drawing), if the camera or the camera rotation is
unavailable, handleMouseUp only drops the drawing flag and logs an error:
no pending annotation or world direction is stored, the confirmation form
is not shown, nothing is persisted, and no other callback fires. -/
theorem C9_abort_without_camera (env : MouseUpEnv) (s : OverlayState)
    (hMode : env.annotationMode = true) (hDis : env.disableInteractions = false)
    (hBtn : env.button = 2) (hDraw : s.isDrawing = true)
    (hBox : s.currentBox.isSome = true) (hCanvas : env.canvasPresent = true)
    (hPaused : env.videoPlaying = false)
    (hCam : env.camera = none ∨ env.cameraRot = none) :
    handleMouseUp env s =
      ⟨{ s with isDrawing := false },
       some "Cannot create annotation: camera or camera rotation not available", false⟩ ∧
    (handleMouseUp env s).state.pendingBox = s.pendingBox ∧
    (handleMouseUp env s).state.pendingWorldDirection = s.pendingWorldDirection ∧
    (handleMouseUp env s).state.showForm = s.showForm ∧
    (handleMouseUp env s).state.persisted = s.persisted := by
  obtain ⟨box, hbox⟩ := Option.isSome_iff_exists.mp hBox
  have hmain : handleMouseUp env s =
      ⟨{ s with isDrawing := false },
       some "Cannot create annotation: camera or camera rotation not available", false⟩ := by
    unfold handleMouseUp
    rw [if_neg (by simp [hMode, hDis, hBtn, hDraw])]
    rcases hCam with h | h
    · simp only [hbox, hCanvas, hPaused, h]
    · rcases hc : env.camera with _ | cc
      · simp only [hbox, hCanvas, hPaused, hc]
      · simp only [hbox, hCanvas, hPaused, hc, h]
  refine ⟨hmain, ?_, ?_, ?_, ?_⟩ <;> rw [hmain]

/-- Witness for C9: a concrete release with no camera available. -/
theorem C9_abort_without_camera_witness :
    handleMouseUp ⟨true, false, 2, true, false, none, none, 1920, 1080⟩
        ⟨true, some ⟨10, 10, 50, 40⟩, none, none, false, []⟩ =
      ⟨⟨false, some ⟨10, 10, 50, 40⟩, none, none, false, []⟩,
       some "Cannot create annotation: camera or camera rotation not available", false⟩ :=
  (C9_abort_without_camera ⟨true, false, 2, true, false, none, none, 1920, 1080⟩
    ⟨true, some ⟨10, 10, 50, 40⟩, none, none, false, []⟩
    rfl rfl rfl rfl rfl rfl rfl (Or.inl rfl)).1
